import Mathlib

/-!
Verification development for the Thies-to-Zarr DSD pipeline
(`src/Functions.py`).

Numeric model: the Python code computes with IEEE floats.  We embed finite
float values as `ℚ` (for the fully rational computations: `calculate_nd`,
`get_events`) or `ℝ` (for `calculate_parameters_dsd` and the fall-speed
law, which use the transcendental power `** 0.67` and `np.pi`).

For `calculate_nd` the cell values are modelled by `FVal`, an IEEE-style
value type with exact-rational finite values, `+inf`, `-inf` and `NaN`:
`raw / 0` is `±inf` for nonzero raw and `NaN` for `0 / 0`, and the
velocity sum follows the xarray `.sum` default `skipna=True`, which
drops `NaN` summands while `±inf` propagates (`inf + (-inf) = NaN`).

For the integrator over `ℝ` a coarser `Option` model is used (`none`
marks a non-finite value, absorbing through sums and products); the
claims proved about it involve no non-finite summand, where this coarse
model and IEEE skip-NaN summation agree.
-/

/-- Model of one IEEE double value: an exact-rational finite value,
positive infinity, negative infinity, or NaN. -/
inductive FVal : Type where
  | fin (q : ℚ)
  | pinf
  | ninf
  | nan
  deriving DecidableEq

/-- Whether a model value is NaN. -/
def FVal.isNaN : FVal → Bool
  | .nan => true
  | _ => false

/-- Whether a model value is finite. -/
def FVal.isFin : FVal → Bool
  | .fin _ => true
  | _ => false

/-- IEEE division of a (finite) raw count by a (finite) denominator: a
zero denominator (taken as `+0`; every denominator here is an exact
rational) gives `+inf` for positive numerator, `-inf` for negative
numerator, and `NaN` for `0 / 0`. -/
def divF (r d : ℚ) : FVal :=
  if d = 0 then
    if 0 < r then FVal.pinf else if r < 0 then FVal.ninf else FVal.nan
  else FVal.fin (r / d)

/-- IEEE addition on model values: finite plus finite is finite, an
infinity propagates, opposite infinities give NaN, NaN propagates. -/
def addF : FVal → FVal → FVal
  | .nan, _ => .nan
  | _, .nan => .nan
  | .pinf, .ninf => .nan
  | .ninf, .pinf => .nan
  | .pinf, _ => .pinf
  | _, .pinf => .pinf
  | .ninf, _ => .ninf
  | _, .ninf => .ninf
  | .fin a, .fin b => .fin (a + b)

/-- Sum of model values as the xarray `.sum(...)` with its default
`skipna=True` computes it: `NaN` entries are dropped, the rest are added
with IEEE addition (an all-NaN or empty slice sums to `0`). -/
def sumF (l : List FVal) : FVal :=
  (l.filter (fun x => !x.isNaN)).foldr addF (FVal.fin 0)

/-- Bin-width vector, embedding `Functions.py` lines 60-62: the
first-difference of the diameter classes, with the first class's width set
to the first diameter value (`xr.concat([diameter[0], delta_D])`). -/
def binWidths {α : Type} [Sub α] (diameter : List α) : List α :=
  match diameter with
  | [] => []
  | d0 :: _ => d0 :: List.zipWith (fun a b => a - b) diameter.tail diameter

/-- Effective sampling area, embedding `Functions.py` lines 65-66:
`A = 228 * (20 - diameter / 2)` in mm², divided by `1e6` to convert to
m². -/
def effArea {α : Type} [Field α] (d : α) : α := 228 * (20 - d / 2) / 1000000

/-- Denominator matrix of the Spectrum Estimator, embedding
`Functions.py` line 69: `denominator = delta_t * delta_D * velocity * A`,
broadcast so entry `(i, j)` is `delta_t * ΔD_i * v_j * A_i`. -/
def denominatorMatrix {α : Type} [Field α] (diameter velocity : List α)
    (delta_t : α) : List (List α) :=
  List.zipWith (fun dD a => velocity.map (fun v => delta_t * dD * v * a))
    (binWidths diameter) (diameter.map effArea)

/-- Spectrum Estimator, embedding `calculate_nd` (`Functions.py` lines
51-82): `nd = (raw / denominator).sum(dim="velocity")` in the `FVal`
model — each cell divides with IEEE semantics (`divF`) and the velocity
sum is the skip-NaN sum (`sumF`), matching the xarray default
`skipna=True`.  Mismatched dimensions align positionally on the overlap
(`zipWith` truncates); the source performs no shape check. -/
def calculate_nd (raw : List (List ℚ)) (diameter velocity : List ℚ)
    (delta_t : ℚ) : List FVal :=
  List.zipWith
    (fun rawRow denomRow => sumF (List.zipWith divF rawRow denomRow))
    raw (denominatorMatrix diameter velocity delta_t)

/-- Diameter classes from `diam_vel_classes` (`Functions.py` lines
37-41), in mm. -/
def diameter_classes : List ℚ :=
  [0.125, 0.250, 0.375, 0.500, 0.750, 1.000, 1.250, 1.500, 1.750,
   2.000, 2.500, 3.000, 3.500, 4.000, 4.500, 5.000, 5.500, 6.000,
   6.500, 7.000, 7.500, 8.000]

/-- Velocity classes from `diam_vel_classes` (`Functions.py` lines
42-46), in m/s. -/
def velocity_classes : List ℚ :=
  [0.100, 0.200, 0.400, 0.600, 0.800, 1.000, 1.400, 1.800, 2.200,
   2.600, 3.000, 3.400, 4.200, 5.000, 5.800, 6.600, 7.400, 8.200,
   9.000, 10.000]

/-!
Event Segmenter (`get_events`, `Functions.py` lines 135-150).  A dataset
is modelled as a list of (timestamp, N(D) row) pairs, timestamps in
minutes (ℤ), in ascending time order.  `none` entries model missing
(NaN) values.
-/

/-- Total spectrum density of one time step: `ds.nd.sum(dim='diameter')`.
The xarray `.sum` default `skipna=True` skips missing entries, so an
all-missing row sums to `0`. -/
def totalDensity (row : List (Option ℚ)) : ℚ :=
  row.foldr (fun x acc => match x with | some v => v + acc | none => acc) 0

/-- Timestamps surviving the density threshold: embedding of
`ev = ds.nd.sum(dim='diameter').where(... > tot_counts)` followed by
`ev = ev[ev.notnull()]` (`Functions.py` lines 142-143). -/
def surviving (ds : List (ℤ × List (Option ℚ))) (tot_counts : ℚ) : List ℤ :=
  ((ds.map (fun p => (p.1, totalDensity p.2))).filter
    (fun p => tot_counts < p.2)).map (fun p => p.1)

/-- Consecutive time gaps labelled by their upper endpoint: embedding of
`a = ev.time.diff('time')` (`Functions.py` line 144).  xarray `diff`
labels each difference by the later time, so the first surviving
timestamp carries no row. -/
def gapsUpper (ev : List ℤ) : List (ℤ × ℤ) :=
  List.zipWith (fun t2 t1 => (t2, t2 - t1)) ev.tail ev

/-- Group ids by running count of breaks: embedding of
`breaks = a >= sec` with `sec = pd.Timedelta('10min')` and
`groups = breaks.cumsum()` (`Functions.py` lines 145-147).  The break
tolerance is the hardcoded 10 minutes, independent of `time_break`. -/
def assignGroups : List (ℤ × ℤ) → ℕ → List (ℤ × ℕ)
  | [], _ => []
  | (t, g) :: rest, acc =>
    let acc2 := if (10 : ℤ) ≤ g then acc + 1 else acc
    (t, acc2) :: assignGroups rest acc2

/-- Distinct group keys in order of appearance.  The keys produced by
`assignGroups` are nondecreasing, so this consecutive deduplication
yields exactly the distinct keys `pandas.groupby` iterates over. -/
def distinctKeys (l : List ℕ) : List ℕ :=
  l.foldr (fun g acc => if acc.head? = some g then acc else g :: acc) []

/-- Groups of timestamps as produced by `groups.groupby('date')`
(`Functions.py` line 148): the diff rows are keyed by cumulative break
count and collected per distinct key. -/
def eventGroups (ev : List ℤ) : List (List ℤ) :=
  let rows := assignGroups (gapsUpper ev) 0
  (distinctKeys (rows.map (fun p => p.2))).map
    (fun g => (rows.filter (fun p => p.2 == g)).map (fun p => p.1))

/-- Event Segmenter, embedding `get_events` (`Functions.py` lines
135-150): groups the diff rows by cumulative break count and emits
`(index.min(), index.max())` for each group with strictly more than
`time_lenght` rows.  The `time_break` parameter is accepted but unused by
the source. -/
def get_events (ds : List (ℤ × List (Option ℚ))) (time_lenght : ℕ)
    (time_break : ℚ) (tot_counts : ℚ) : List ℤ × List ℤ :=
  (((eventGroups (surviving ds tot_counts)).filter
      (fun run => time_lenght < run.length)).filterMap List.min?,
   ((eventGroups (surviving ds tot_counts)).filter
      (fun run => time_lenght < run.length)).filterMap List.max?)

/-- Eleven consecutive surviving samples (density 10, above the default
threshold 5), one minute apart. -/
def ds11 : List (ℤ × List (Option ℚ)) :=
  [(0, [some 10]), (1, [some 10]), (2, [some 10]), (3, [some 10]),
   (4, [some 10]), (5, [some 10]), (6, [some 10]), (7, [some 10]),
   (8, [some 10]), (9, [some 10]), (10, [some 10])]

/-- Twelve consecutive surviving samples, one minute apart. -/
def ds12 : List (ℤ × List (Option ℚ)) :=
  ds11 ++ [(11, [some 10])]

/-!
Bulk Parameter Integrator (`calculate_parameters_dsd`, `Functions.py`
lines 84-133) and the fall-speed law, over `ℝ` because they use `np.pi`
and the real power `** 0.67`.  The option model of float values is the
same as over `ℚ`.
-/

/-- Fall-Speed Model, embedding `atlas_ulbrich_velocity` (`Functions.py`
lines 6-13): `vd = 17.67 * ((diameter / 10) ** 0.67)`. -/
noncomputable def atlas_ulbrich_velocity (diameter : ℝ) : ℝ :=
  17.67 * ((diameter / 10) ^ (0.67 : ℝ))

/-- Addition on the option model over `ℝ`. -/
def addOR : Option ℝ → Option ℝ → Option ℝ
  | some a, some b => some (a + b)
  | _, _ => none

/-- Multiplication on the option model over `ℝ`: a non-finite factor
makes the product non-finite. -/
def mulOR : Option ℝ → Option ℝ → Option ℝ
  | some a, some b => some (a * b)
  | _, _ => none

/-- Division on the option model over `ℝ`: division by zero, or by a
non-finite value, produces a non-finite value. -/
noncomputable def divOR : Option ℝ → Option ℝ → Option ℝ
  | some a, some b => if b = 0 then none else some (a / b)
  | _, _ => none

/-- Natural power on the option model over `ℝ`. -/
def powOR : Option ℝ → ℕ → Option ℝ
  | some a, n => some (a ^ n)
  | none, _ => none

/-- Sum of option-model values over `ℝ`, as `.sum(dim='diameter')`. -/
def sumOR (l : List (Option ℝ)) : Option ℝ := l.foldr addOR (some 0)

/-- Density of water used by the integrator (`rho_w = 1.0` g/cm³,
`Functions.py` line 105). -/
def rho_w : ℝ := 1

/-- Bulk Parameter Integrator, embedding `calculate_parameters_dsd`
(`Functions.py` lines 84-133).  Returns `(R, W, N_T, Z, D_m, N_w)`:
rain rate, liquid water content, total concentration, reflectivity,
mean diameter and normalized intercept, each a weighted sum over the
diameter axis with the bin widths as measure, in the option model. -/
noncomputable def calculate_parameters_dsd (nd : List (Option ℝ))
    (diameter : List ℝ) :
    Option ℝ × Option ℝ × Option ℝ × Option ℝ × Option ℝ × Option ℝ :=
  let dD := binWidths diameter
  let R := mulOR (some (6 * Real.pi / 1e4))
    (sumOR (List.zipWith3
      (fun d n w => mulOR (mulOR (some (d ^ 3 * atlas_ulbrich_velocity d)) n)
        (some w)) diameter nd dD))
  let W := mulOR (some (Real.pi * rho_w / 6000))
    (sumOR (List.zipWith3
      (fun d n w => mulOR (mulOR (some (d ^ 3)) n) (some w)) diameter nd dD))
  let NT := sumOR (List.zipWith (fun n w => mulOR n (some w)) nd dD)
  let Z := sumOR (List.zipWith3
    (fun d n w => mulOR (mulOR (some (d ^ 6)) n) (some w)) diameter nd dD)
  let Dm := divOR
    (sumOR (List.zipWith3
      (fun d n w => mulOR (mulOR (some (d ^ 4)) n) (some w)) diameter nd dD))
    (sumOR (List.zipWith3
      (fun d n w => mulOR (mulOR (some (d ^ 3)) n) (some w)) diameter nd dD))
  let Nw := mulOR (some (4 ^ 4 / Real.pi * rho_w))
    (divOR (mulOR (some 1e3) W) (powOR Dm 4))
  (R, W, NT, Z, Dm, Nw)

/-- Diameter classes as real numbers, for use with the integrator. -/
noncomputable def diameter_classes_r : List ℝ :=
  [0.125, 0.250, 0.375, 0.500, 0.750, 1.000, 1.250, 1.500, 1.750,
   2.000, 2.500, 3.000, 3.500, 4.000, 4.500, 5.000, 5.500, 6.000,
   6.500, 7.000, 7.500, 8.000]

/-! Helper lemmas. -/

lemma addF_isFin (x y : FVal) : (addF x y).isFin = (x.isFin && y.isFin) := by
  cases x <;> cases y <;> rfl

lemma foldr_addF_isFin (l : List FVal) :
    ((l.foldr addF (FVal.fin 0)).isFin = true) ↔ ∀ x ∈ l, x.isFin = true := by
  induction l with
  | nil => simp [FVal.isFin]
  | cons y ys ih =>
    simp only [List.foldr_cons, addF_isFin, Bool.and_eq_true, ih,
      List.mem_cons]
    constructor
    · rintro ⟨hy, hys⟩ x hx
      rcases hx with rfl | hx
      · exact hy
      · exact hys x hx
    · intro h
      exact ⟨h y (Or.inl rfl), fun x hx => h x (Or.inr hx)⟩

lemma sumF_cons_not_nan (x : FVal) (l : List FVal) (h : x.isNaN = false) :
    sumF (x :: l) = addF x (sumF l) := by
  simp [sumF, List.filter_cons, h]

lemma sumF_not_fin_of_mem (l : List FVal) (x : FVal) (hx : x ∈ l)
    (hnan : x.isNaN = false) (hfin : x.isFin = false) :
    (sumF l).isFin = false := by
  have hmem : x ∈ l.filter (fun y => !y.isNaN) :=
    List.mem_filter.mpr ⟨hx, by simp [hnan]⟩
  have hne : ((l.filter (fun y => !y.isNaN)).foldr addF
      (FVal.fin 0)).isFin ≠ true := by
    intro htrue
    have hx2 := (foldr_addF_isFin _).mp htrue x hmem
    rw [hfin] at hx2
    exact Bool.false_ne_true hx2
  show ((l.filter (fun y => !y.isNaN)).foldr addF (FVal.fin 0)).isFin = false
  exact Bool.eq_false_iff.mpr hne

lemma sumF_div_isFin :
    ∀ (rr dr : List ℚ), (∀ d ∈ dr, d ≠ 0) →
      (sumF (List.zipWith divF rr dr)).isFin = true := by
  intro rr
  induction rr with
  | nil => intro dr _; rfl
  | cons r rs ih =>
    intro dr h
    cases dr with
    | nil => rfl
    | cons d ds =>
      have hd : d ≠ 0 := h d (List.mem_cons_self d ds)
      have hrec := ih ds (fun x hx => h x (List.mem_cons_of_mem d hx))
      rw [List.zipWith_cons_cons]
      have hdiv : divF r d = FVal.fin (r / d) := by simp [divF, hd]
      rw [hdiv, sumF_cons_not_nan (FVal.fin (r / d))
        (List.zipWith divF rs ds) rfl, addF_isFin, hrec]
      rfl

lemma sumF_div_replicate_zero :
    ∀ (dr : List ℚ) (n : ℕ), (∀ d ∈ dr, d ≠ 0) →
      sumF (List.zipWith divF (List.replicate n 0) dr) = FVal.fin 0 := by
  intro dr
  induction dr with
  | nil => intro n _; simp [sumF]
  | cons d ds ih =>
    intro n h
    cases n with
    | zero => rfl
    | succ m =>
      have hd : d ≠ 0 := h d (List.mem_cons_self d ds)
      have hrec := ih m (fun x hx => h x (List.mem_cons_of_mem d hx))
      rw [List.replicate_succ, List.zipWith_cons_cons]
      have hdiv : divF 0 d = FVal.fin 0 := by simp [divF, hd]
      rw [hdiv, sumF_cons_not_nan (FVal.fin 0)
        (List.zipWith divF (List.replicate m 0) ds) rfl, hrec]
      simp [addF]

/-- Faithfulness of the skip-NaN sum: a `0 / 0` cell yields `NaN`, which
the velocity sum drops, so a bin whose only cell is `0 / 0` is the
finite value `0` — exactly what the program returns there. -/
lemma calculate_nd_nan_skipped :
    calculate_nd [[0]] [1] [0] 60 = [FVal.fin 0] := by
  norm_num [calculate_nd, denominatorMatrix, binWidths, effArea, sumF,
    divF, addF, FVal.isNaN]

/-- Faithfulness of the skip-NaN sum, mixed row: a `0 / 0` cell is
skipped while the remaining finite quotient is kept, so the bin is the
finite sum of the other cells. -/
lemma calculate_nd_nan_skipped_partial :
    calculate_nd [[0, 1]] [1] [0, 1] 60 = [FVal.fin (25000 / 6669)] := by
  norm_num [calculate_nd, denominatorMatrix, binWidths, effArea, sumF,
    divF, addF, FVal.isNaN]

lemma forall_mem_zipWith {α β γ : Type} {f : α → β → γ} {P : γ → Prop} :
    ∀ {l1 : List α} {l2 : List β},
      (∀ a ∈ l1, ∀ b ∈ l2, P (f a b)) → ∀ c ∈ List.zipWith f l1 l2, P c := by
  intro l1
  induction l1 with
  | nil => intro l2 _ c hc; simp at hc
  | cons a as ih =>
    intro l2 h c hc
    cases l2 with
    | nil => simp at hc
    | cons b bs =>
      rw [List.zipWith_cons_cons] at hc
      rcases List.mem_cons.mp hc with rfl | hc2
      · exact h a (List.mem_cons_self a as) b (List.mem_cons_self b bs)
      · exact ih (fun x hx y hy =>
          h x (List.mem_cons_of_mem a hx) y (List.mem_cons_of_mem b hy)) c hc2

lemma zipWith_replicate_eq_replicate {α β γ : Type} (f : α → β → γ)
    (x : α) (c : γ) :
    ∀ (M : List β) (n : ℕ), M.length = n → (∀ row ∈ M, f x row = c) →
      List.zipWith f (List.replicate n x) M = List.replicate n c := by
  intro M
  induction M with
  | nil => intro n h _; subst h; rfl
  | cons r rs ih =>
    intro n h hf
    cases n with
    | zero => simp at h
    | succ m =>
      rw [List.replicate_succ, List.zipWith_cons_cons, List.replicate_succ]
      refine congrArg₂ _ (hf r (List.mem_cons_self r rs)) ?_
      exact ih m (by simpa using h) (fun row hrow =>
        hf row (List.mem_cons_of_mem r hrow))

lemma vel_pos : ∀ v ∈ velocity_classes, 0 < v := by
  intro v hv
  fin_cases hv <;> norm_num [velocity_classes]

lemma area_pos : ∀ d ∈ diameter_classes, 0 < effArea d := by
  intro d hd
  fin_cases hd <;> norm_num [effArea]

lemma bw_pos : ∀ x ∈ binWidths diameter_classes, 0 < x := by
  intro x hx
  simp only [binWidths, diameter_classes, List.tail, List.zipWith] at hx
  fin_cases hx <;> norm_num

lemma denom_pos :
    ∀ row ∈ denominatorMatrix diameter_classes velocity_classes 60,
      ∀ q ∈ row, 0 < q := by
  unfold denominatorMatrix
  refine forall_mem_zipWith ?_
  intro dD hdD a ha q hq
  rcases List.mem_map.mp ha with ⟨d, hd, rfl⟩
  rcases List.mem_map.mp hq with ⟨v, hv, rfl⟩
  exact mul_pos (mul_pos (mul_pos (by norm_num) (bw_pos dD hdD))
    (vel_pos v hv)) (area_pos d hd)

lemma sumOR_cons (y : Option ℝ) (l : List (Option ℝ)) :
    sumOR (y :: l) = addOR y (sumOR l) := rfl

lemma sumOR_zipWith3_zero (f : ℝ → Option ℝ → ℝ → Option ℝ)
    (hf : ∀ d w, f d (some 0) w = some 0) :
    ∀ (a : List ℝ) (b : List (Option ℝ)) (c : List ℝ),
      (∀ x ∈ b, x = some 0) → sumOR (List.zipWith3 f a b c) = some 0 := by
  intro a
  induction a with
  | nil => intro b c _; rfl
  | cons d ds ih =>
    intro b c h
    cases b with
    | nil => rfl
    | cons x xs =>
      cases c with
      | nil => rfl
      | cons w ws =>
        have hx : x = some 0 := h x (List.mem_cons_self x xs)
        have hrec := ih xs ws (fun y hy => h y (List.mem_cons_of_mem x hy))
        show sumOR (f d x w :: List.zipWith3 f ds xs ws) = some 0
        rw [sumOR_cons, hx, hf d w, hrec]
        simp [addOR]

lemma sumOR_zipWith_zero (f : Option ℝ → ℝ → Option ℝ)
    (hf : ∀ w, f (some 0) w = some 0) :
    ∀ (b : List (Option ℝ)) (c : List ℝ),
      (∀ x ∈ b, x = some 0) → sumOR (List.zipWith f b c) = some 0 := by
  intro b
  induction b with
  | nil => intro c _; rfl
  | cons x xs ih =>
    intro c h
    cases c with
    | nil => rfl
    | cons w ws =>
      have hx : x = some 0 := h x (List.mem_cons_self x xs)
      have hrec := ih ws (fun y hy => h y (List.mem_cons_of_mem x hy))
      rw [List.zipWith_cons_cons, sumOR_cons, hx, hf w, hrec]
      simp [addOR]

lemma totalDensity_all_none (row : List (Option ℚ))
    (h : ∀ x ∈ row, x = none) : totalDensity row = 0 := by
  induction row with
  | nil => rfl
  | cons x xs ih =>
    have hx : x = none := h x (List.mem_cons_self x xs)
    have hrec := ih (fun y hy => h y (List.mem_cons_of_mem x hy))
    simp only [totalDensity, List.foldr_cons, hx]
    exact hrec

lemma surviving_all_missing (ds : List (ℤ × List (Option ℚ)))
    (tot_counts : ℚ) (htot : 0 ≤ tot_counts)
    (h : ∀ p ∈ ds, ∀ x ∈ p.2, x = none) :
    surviving ds tot_counts = [] := by
  induction ds with
  | nil => rfl
  | cons p ps ih =>
    have hp : totalDensity p.2 = 0 :=
      totalDensity_all_none p.2 (h p (List.mem_cons_self p ps))
    have hrec := ih (fun q hq => h q (List.mem_cons_of_mem p hq))
    simp only [surviving, List.map_cons, List.filter_cons] at hrec ⊢
    rw [hp]
    have : ¬ (tot_counts < 0) := not_lt.mpr htot
    rw [decide_eq_false this]
    simpa using hrec

/-- A run of twelve surviving samples does yield one event, but its
start is the run's second timestamp: the first surviving sample carries
no diff row, so `index.min()` of the first group is the second sample,
not the first. -/
lemma get_events_twelve_sample_run_event :
    get_events ds12 10 5 5 = ([1], [11]) := by
  have hs : surviving ds12 5 = [0, 1, 2, 3, 4, 5, 6, 7, 8, 9, 10, 11] := by
    norm_num [surviving, totalDensity, ds12, ds11]
  unfold get_events
  rw [hs]
  decide

/-! Claim theorems. -/

/-- C2: for every input series and any two values of the `time_break`
parameter, `get_events` returns the same result: the break tolerance is
the hardcoded 10-minute duration, not derived from `time_break`. -/
theorem get_events_independent_of_time_break
    (ds : List (ℤ × List (Option ℚ))) (time_lenght : ℕ)
    (tb1 tb2 : ℚ) (tot_counts : ℚ) :
    get_events ds time_lenght tb1 tot_counts
      = get_events ds time_lenght tb2 tot_counts := rfl

/-- C3 (code bug): a single contiguous run of `time_lenght + 1 = 11`
surviving samples at one-minute spacing yields NO event: since the
time-diff rows are labelled by their upper endpoint, the run contributes
only 10 rows to the grouping, and the strict `10 > 10` test fails,
contrary to the claim that `min_event_length + 1` samples yield one
event spanning the group's earliest to latest timestamp. -/
theorem get_events_eleven_sample_run_no_event :
    get_events ds11 10 5 5 = ([], []) := by
  have hs : surviving ds11 5 = [0, 1, 2, 3, 4, 5, 6, 7, 8, 9, 10] := by
    norm_num [surviving, totalDensity, ds11]
  unfold get_events
  rw [hs]
  decide

/-- C5: with the instrument's fixed classification tables and the default
`delta_t = 60`, an all-zero raw count matrix yields `N(D) = 0` at every
one of the 22 diameter bins, and no bin is a missing value. -/
theorem calculate_nd_all_zero_counts :
    calculate_nd (List.replicate 22 (List.replicate 20 0)) diameter_classes
      velocity_classes 60 = List.replicate 22 (FVal.fin 0) := by
  unfold calculate_nd
  refine zipWith_replicate_eq_replicate _ _ _ _ 22 rfl ?_
  intro row hrow
  refine sumF_div_replicate_zero row 20 ?_
  intro d hd
  exact ne_of_gt (denom_pos row hrow d hd)

/-- C7: for an empty or all-missing time series (with a non-negative
count threshold, as in the default `tot_counts = 5`), `get_events`
returns two empty sequences. -/
theorem get_events_all_missing_empty (ds : List (ℤ × List (Option ℚ)))
    (time_lenght : ℕ) (time_break : ℚ) (tot_counts : ℚ)
    (htot : 0 ≤ tot_counts) (h : ∀ p ∈ ds, ∀ x ∈ p.2, x = none) :
    get_events ds time_lenght time_break tot_counts = ([], []) := by
  unfold get_events
  rw [surviving_all_missing ds tot_counts htot h]
  rfl

/-- Witness for `get_events_all_missing_empty`: a one-step, all-missing
series with the default parameters. -/
theorem get_events_all_missing_empty_witness :
    (0 : ℚ) ≤ 5 ∧
    get_events [((0 : ℤ), [(none : Option ℚ)])] 10 5 5 = ([], []) :=
  ⟨by norm_num,
   get_events_all_missing_empty [((0 : ℤ), [(none : Option ℚ)])] 10 5 5
     (by norm_num) (by simp)⟩

/-- C8: the bin width vector derived from the diameter classes has
length 22, first entry equal to the first diameter value `0.125`, and
every entry positive. -/
theorem binWidths_length_first_pos :
    (binWidths diameter_classes).length = 22 ∧
    (binWidths diameter_classes).getD 0 0 = 0.125 ∧
    ∀ x ∈ binWidths diameter_classes, 0 < x :=
  ⟨rfl, rfl, bw_pos⟩

/-- Witness for `binWidths_length_first_pos` at the first bin width. -/
theorem binWidths_length_first_pos_witness : (0 : ℚ) < 0.125 :=
  binWidths_length_first_pos.2.2 0.125 (by simp [binWidths, diameter_classes])

/-- C9: the fall-speed model `v(D) = 17.67 * (D/10)^0.67` is strictly
increasing on the non-negative diameters. -/
theorem atlas_ulbrich_velocity_strictMono (D1 D2 : ℝ)
    (h0 : 0 ≤ D1) (h12 : D1 < D2) :
    atlas_ulbrich_velocity D1 < atlas_ulbrich_velocity D2 := by
  unfold atlas_ulbrich_velocity
  have h1 : (0 : ℝ) ≤ D1 / 10 := by positivity
  have h2 : D1 / 10 < D2 / 10 := by linarith
  have h3 : (D1 / 10) ^ (0.67 : ℝ) < (D2 / 10) ^ (0.67 : ℝ) :=
    Real.rpow_lt_rpow h1 h2 (by norm_num)
  exact mul_lt_mul_of_pos_left h3 (by norm_num)

/-- Witness for `atlas_ulbrich_velocity_strictMono` at diameters 1 and 2. -/
theorem atlas_ulbrich_velocity_strictMono_witness :
    (0 : ℝ) ≤ 1 ∧ (1 : ℝ) < 2 ∧
    atlas_ulbrich_velocity 1 < atlas_ulbrich_velocity 2 :=
  ⟨by norm_num, by norm_num,
   atlas_ulbrich_velocity_strictMono 1 2 (by norm_num) (by norm_num)⟩

/-- C4: if `N(D)` is zero at every diameter bin, the integrator returns
zero (not missing) for rain rate, liquid water content, total
concentration and reflectivity, while mean diameter and normalized
intercept are missing values produced by the zero-denominator rule. -/
theorem calculate_parameters_dsd_zero_nd (nd : List (Option ℝ))
    (diameter : List ℝ) (h : ∀ x ∈ nd, x = some 0) :
    calculate_parameters_dsd nd diameter
      = (some 0, some 0, some 0, some 0, none, none) := by
  have hR := sumOR_zipWith3_zero
    (fun d n w =>
      mulOR (mulOR (some (d ^ 3 * atlas_ulbrich_velocity d)) n) (some w))
    (fun d w => by simp [mulOR]) diameter nd (binWidths diameter) h
  have h3 := sumOR_zipWith3_zero
    (fun d n w => mulOR (mulOR (some (d ^ 3)) n) (some w))
    (fun d w => by simp [mulOR]) diameter nd (binWidths diameter) h
  have h4 := sumOR_zipWith3_zero
    (fun d n w => mulOR (mulOR (some (d ^ 4)) n) (some w))
    (fun d w => by simp [mulOR]) diameter nd (binWidths diameter) h
  have h6 := sumOR_zipWith3_zero
    (fun d n w => mulOR (mulOR (some (d ^ 6)) n) (some w))
    (fun d w => by simp [mulOR]) diameter nd (binWidths diameter) h
  have hNT := sumOR_zipWith_zero (fun n w => mulOR n (some w))
    (fun w => by simp [mulOR]) nd (binWidths diameter) h
  unfold calculate_parameters_dsd
  simp only [hR, h3, h4, h6, hNT]
  simp [mulOR, divOR, powOR]

/-- Witness for `calculate_parameters_dsd_zero_nd` on a concrete
all-zero spectrum over the instrument's diameter classes. -/
theorem calculate_parameters_dsd_zero_nd_witness :
    (∀ x ∈ [some (0 : ℝ)], x = some 0) ∧
    calculate_parameters_dsd [some 0] diameter_classes_r
      = (some 0, some 0, some 0, some 0, none, none) :=
  ⟨by simp,
   calculate_parameters_dsd_zero_nd [some 0] diameter_classes_r (by simp)⟩

/-- C10: with the fixed classification tables and the default
`delta_t = 60`, every denominator cell `delta_t * ΔD_i * v_j * A_i` is
strictly positive, so the division in `calculate_nd` never divides by
zero for these inputs: whatever the raw count matrix, no output bin is a
non-finite value. -/
theorem denominators_pos_nd_defined :
    (∀ row ∈ denominatorMatrix diameter_classes velocity_classes 60,
      ∀ q ∈ row, 0 < q) ∧
    ∀ raw : List (List ℚ),
      ∀ x ∈ calculate_nd raw diameter_classes velocity_classes 60,
        x.isFin = true := by
  refine ⟨denom_pos, ?_⟩
  intro raw
  unfold calculate_nd
  refine forall_mem_zipWith ?_
  intro rr _ dr hdr
  exact sumF_div_isFin rr dr (fun d hd => ne_of_gt (denom_pos dr hdr d hd))

/-- Witness for `denominators_pos_nd_defined` at the first denominator
cell (first diameter bin, first velocity bin). -/
theorem denominators_pos_nd_defined_witness :
    (0 : ℚ) < 60 * 0.125 * 0.100 * effArea 0.125 :=
  denominators_pos_nd_defined.1
    (velocity_classes.map (fun v => 60 * 0.125 * v * effArea 0.125))
    (by simp [denominatorMatrix, binWidths, diameter_classes])
    (60 * 0.125 * 0.100 * effArea 0.125)
    (by simp [velocity_classes])

/-- C6 (amended): `calculate_nd` performs no dimension validation; for a
raw matrix of any shape it returns an N(D) result over the positionally
aligned overlap, of length `min raw.length 22`, instead of failing
fast. -/
theorem calculate_nd_no_shape_check (raw : List (List ℚ)) (delta_t : ℚ) :
    (calculate_nd raw diameter_classes velocity_classes delta_t).length
      = min raw.length 22 := by
  have h22 : (denominatorMatrix diameter_classes velocity_classes
      delta_t).length = 22 := rfl
  simp [calculate_nd, List.length_zipWith, h22]

/-- C1 (amended): in `calculate_nd`, a cell whose denominator is zero and
whose raw count is nonzero divides to `±inf`, which survives the
skip-NaN velocity sum, so that diameter bin's `N(D)` is non-finite — the
cell does not contribute zero.  (A `0 / 0` cell instead yields `NaN`,
which the sum skips.) -/
theorem calculate_nd_zero_denominator_invalid
    (raw : List (List ℚ)) (diameter velocity : List ℚ) (delta_t : ℚ)
    (i j : ℕ) (hi1 : i < raw.length)
    (hi2 : i < (denominatorMatrix diameter velocity delta_t).length)
    (hj1 : j < (raw.getD i []).length)
    (hj2 : j < ((denominatorMatrix diameter velocity delta_t).getD i []).length)
    (hz : ((denominatorMatrix diameter velocity delta_t).getD i []).getD j 1
      = 0)
    (hr : (raw.getD i []).getD j 0 ≠ 0) :
    ((calculate_nd raw diameter velocity delta_t).getD i
      (FVal.fin 0)).isFin = false := by
  have hgetDraw : raw.getD i [] = raw[i] := by
    rw [List.getD_eq_getElem?_getD, List.getElem?_eq_getElem hi1]
    rfl
  have hgetDM : (denominatorMatrix diameter velocity delta_t).getD i []
      = (denominatorMatrix diameter velocity delta_t)[i] := by
    rw [List.getD_eq_getElem?_getD, List.getElem?_eq_getElem hi2]
    rfl
  rw [hgetDraw] at hj1 hr
  rw [hgetDM] at hj2 hz
  have hM0 : ((denominatorMatrix diameter velocity delta_t)[i]).getD j 1
      = (denominatorMatrix diameter velocity delta_t)[i][j] := by
    rw [List.getD_eq_getElem?_getD, List.getElem?_eq_getElem hj2]
    rfl
  rw [hM0] at hz
  have hr0 : (raw[i]).getD j 0 = raw[i][j] := by
    rw [List.getD_eq_getElem?_getD, List.getElem?_eq_getElem hj1]
    rfl
  rw [hr0] at hr
  have hlen : i < (calculate_nd raw diameter velocity delta_t).length := by
    simp only [calculate_nd, List.length_zipWith, lt_min_iff]
    exact ⟨hi1, hi2⟩
  have hres : (calculate_nd raw diameter velocity delta_t).getD i (FVal.fin 0)
      = (calculate_nd raw diameter velocity delta_t)[i] := by
    rw [List.getD_eq_getElem?_getD, List.getElem?_eq_getElem hlen]
    rfl
  rw [hres]
  have hrow : (calculate_nd raw diameter velocity delta_t)[i]
      = sumF (List.zipWith divF raw[i]
          (denominatorMatrix diameter velocity delta_t)[i]) := by
    simp only [calculate_nd, List.getElem_zipWith]
  rw [hrow]
  have hjz : j < (List.zipWith divF raw[i]
      (denominatorMatrix diameter velocity delta_t)[i]).length := by
    rw [List.length_zipWith]
    exact lt_min hj1 hj2
  have helem : (List.zipWith divF raw[i]
      (denominatorMatrix diameter velocity delta_t)[i])[j]
      = divF raw[i][j] 0 := by
    rw [List.getElem_zipWith, hz]
  have hkey : (divF raw[i][j] 0).isNaN = false ∧
      (divF raw[i][j] 0).isFin = false := by
    unfold divF
    rw [if_pos rfl]
    rcases hr.lt_or_lt with hlt | hgt
    · rw [if_neg (by linarith), if_pos hlt]
      exact ⟨rfl, rfl⟩
    · rw [if_pos hgt]
      exact ⟨rfl, rfl⟩
  exact sumF_not_fin_of_mem _ (divF raw[i][j] 0)
    (helem ▸ List.getElem_mem hjz) hkey.1 hkey.2

/-- Witness for `calculate_nd_zero_denominator_invalid`: a one-cell
matrix with raw count `1` over a zero velocity class, whose only
denominator is zero. -/
theorem calculate_nd_zero_denominator_invalid_witness :
    ((0 : ℕ) < ([[(1 : ℚ)]] : List (List ℚ)).length) ∧
    ((0 : ℕ) < (denominatorMatrix [(1 : ℚ)] [0] 60).length) ∧
    ((0 : ℕ) < (([[(1 : ℚ)]] : List (List ℚ)).getD 0 []).length) ∧
    ((0 : ℕ) < ((denominatorMatrix [(1 : ℚ)] [0] 60).getD 0 []).length) ∧
    (((denominatorMatrix [(1 : ℚ)] [0] 60).getD 0 []).getD 0 1 = 0) ∧
    ((([[(1 : ℚ)]] : List (List ℚ)).getD 0 []).getD 0 0 ≠ 0) ∧
    ((calculate_nd [[1]] [1] [0] 60).getD 0 (FVal.fin 0)).isFin = false :=
  ⟨by decide, by decide, by decide, by decide,
   by norm_num [denominatorMatrix, binWidths, effArea],
   by norm_num,
   calculate_nd_zero_denominator_invalid [[1]] [1] [0] 60 0 0
     (by decide) (by decide) (by decide) (by decide)
     (by norm_num [denominatorMatrix, binWidths, effArea]) (by norm_num)⟩

/-- Counterexample to C1 as stated: with a single cell of raw count `1`
over a zero velocity class (so the cell's denominator is zero), the bin's
`N(D)` is `+inf`, not zero — the zero-denominator cell does not
contribute zero, the invalid value propagates into the result. -/
theorem calculate_nd_zero_denominator_not_zero_contribution :
    calculate_nd [[1]] [1] [0] 60 = [FVal.pinf] ∧
    calculate_nd [[1]] [1] [0] 60 ≠ [FVal.fin 0] := by
  have h : calculate_nd [[1]] [1] [0] 60 = [FVal.pinf] := by
    norm_num [calculate_nd, denominatorMatrix, binWidths, effArea, sumF,
      divF, addF, FVal.isNaN]
  exact ⟨h, by rw [h]; simp⟩

/-- Counterexample to C6 as stated: a 3-by-2 raw count matrix does not
match the 22-by-20 classification tables, yet `calculate_nd` returns a
normal result (three finite bins over the overlap) instead of failing
fast with a shape-mismatch error. -/
theorem calculate_nd_shape_mismatch_returns_result :
    (calculate_nd [[1, 1], [1, 1], [1, 1]] diameter_classes velocity_classes
      60).length = 3 ∧
    (calculate_nd [[1, 1], [1, 1], [1, 1]] diameter_classes velocity_classes
      60).all (fun x => x.isFin) = true := by
  constructor
  · rfl
  · norm_num [calculate_nd, denominatorMatrix, binWidths, effArea,
      diameter_classes, velocity_classes, sumF, divF, addF, FVal.isNaN,
      FVal.isFin]
